import Mathlib

/-!
Verification of the long-post drafting and thread-splitting subsystem of an
MCP server for Bluesky.  The definitions below are a shallow embedding of the
draft-tool module (`createDraftTool` / `listDraftsTool` / `getDraftTool` /
`publishDraftTool` / `deleteDraftTool` and their handlers): JS strings are
modelled as Lean `String`s in which every `Char` stands for one grapheme
cluster, the in-memory `Map` of drafts is modelled as an insertion-ordered
association list, and the remote Bluesky agent is modelled by a scripted list
of responses (one per issued `agent.post` call) together with a `getCid`
resolver function.
-/

set_option maxRecDepth 4000

/-- Maximum post length for Bluesky, in graphemes (`MAX_POST_LENGTH`). -/
def MAX_POST_LENGTH : Nat := 300

/-- Grapheme length of a string (`getGraphemeLength`).  The source counts
grapheme clusters with `Intl.Segmenter`; in this embedding every `Char` stands
for one grapheme cluster, so the count is the character count. -/
def getGraphemeLength (s : String) : Nat := s.data.length

/-- The JS `\s` whitespace class, restricted to the ASCII whitespace
characters this embedding models. -/
def isJsWhitespace (c : Char) : Bool :=
  c == ' ' || c == '\t' || c == '\n' || c == '\r' || c == '\x0b' || c == '\x0c'

/-- Index of the last newline character in a list, if any. -/
def lastNewlineIdx : List Char → Option Nat
  | [] => none
  | c :: rest =>
    match lastNewlineIdx rest with
    | some t => some (t + 1)
    | none => if c == '\n' then some 0 else none

/-- Length of the leftmost match of the paragraph-break pattern (newline,
whitespace-star, newline) when anchored at the head of the list.  The
whitespace-star is greedy with backtracking, so the match runs up to the last
newline inside the whitespace run that follows the first newline. -/
def matchParaSep : List Char → Option Nat
  | '\n' :: rest =>
    match lastNewlineIdx (rest.takeWhile isJsWhitespace) with
    | some t => some (t + 2)
    | none => none
  | _ => none

/-- Splitting on the paragraph-break pattern (`content.split` on the
blank-line regex).  `skip` counts separator characters still to be dropped;
`acc` holds the current part, reversed. -/
def splitParaAux : List Char → Nat → List Char → List (List Char)
  | [], _, acc => [acc.reverse]
  | _ :: rest, skip + 1, acc => splitParaAux rest skip acc
  | c :: rest, 0, acc =>
    match matchParaSep (c :: rest) with
    | some n => acc.reverse :: splitParaAux rest (n - 1) []
    | none => splitParaAux rest 0 (c :: acc)

/-- Splitting on sentence boundaries (`paragraph.split` on the
punctuation-lookbehind whitespace-run regex): a maximal whitespace run that
immediately follows one of `.`, `!`, `?` separates parts; the punctuation
stays with the preceding part. -/
def splitSentAux : List Char → Nat → List Char → List (List Char)
  | [], _, acc => [acc.reverse]
  | _ :: rest, skip + 1, acc => splitSentAux rest skip acc
  | c :: rest, 0, acc =>
    if c == '.' || c == '!' || c == '?' then
      match rest.takeWhile isJsWhitespace with
      | [] => splitSentAux rest 0 (c :: acc)
      | w :: ws => (c :: acc).reverse :: splitSentAux rest (w :: ws).length []
    else splitSentAux rest 0 (c :: acc)

/-- Splitting on maximal whitespace runs (`sentence.split` on the
whitespace-run regex). -/
def splitWsAux : List Char → Nat → List Char → List (List Char)
  | [], _, acc => [acc.reverse]
  | _ :: rest, skip + 1, acc => splitWsAux rest skip acc
  | c :: rest, 0, acc =>
    if isJsWhitespace c then
      acc.reverse :: splitWsAux rest (rest.takeWhile isJsWhitespace).length []
    else splitWsAux rest 0 (c :: acc)

/-- String-level wrapper for the blank-line split of `content`. -/
def splitOnParagraphBreaks (s : String) : List String :=
  (splitParaAux s.data 0 []).map String.mk

/-- String-level wrapper for the sentence-boundary split of a paragraph. -/
def splitOnSentenceBounds (s : String) : List String :=
  (splitSentAux s.data 0 []).map String.mk

/-- String-level wrapper for the whitespace split of a sentence. -/
def splitOnWhitespace (s : String) : List String :=
  (splitWsAux s.data 0 []).map String.mk

/-- The innermost loop of `splitContentIntoChunks` (word tier): accumulates
words of an oversized sentence into `wordChunk`, merging or flushing into
`currentChunk` when the next word would overflow the limit.  Returns the
updated `(chunks, currentChunk, wordChunk)`. -/
def wordLoop : List String → List String → String → String →
    List String × String × String
  | [], chunks, currentChunk, wordChunk => (chunks, currentChunk, wordChunk)
  | word :: rest, chunks, currentChunk, wordChunk =>
    if MAX_POST_LENGTH <
        getGraphemeLength (wordChunk ++ (if wordChunk = "" then "" else " ") ++ word) then
      if currentChunk ≠ "" ∧
          getGraphemeLength (currentChunk ++ " " ++ wordChunk) ≤ MAX_POST_LENGTH then
        wordLoop rest chunks (currentChunk ++ " " ++ wordChunk) word
      else
        wordLoop rest (if currentChunk = "" then chunks else chunks ++ [currentChunk])
          wordChunk word
    else
      wordLoop rest chunks currentChunk
        (wordChunk ++ (if wordChunk = "" then "" else " ") ++ word)

/-- The trailing-`wordChunk` handling that follows the word loop in the
source: merge the remaining word buffer into `currentChunk` if it fits,
otherwise flush `currentChunk` and promote the buffer. -/
def flushWordChunk (chunks : List String) (currentChunk wordChunk : String) :
    List String × String :=
  if wordChunk = "" then (chunks, currentChunk)
  else if currentChunk ≠ "" ∧
      getGraphemeLength (currentChunk ++ " " ++ wordChunk) ≤ MAX_POST_LENGTH then
    (chunks, currentChunk ++ " " ++ wordChunk)
  else
    ((if currentChunk = "" then chunks else chunks ++ [currentChunk]), wordChunk)

/-- The sentence tier of `splitContentIntoChunks`: processes the sentences of
an oversized paragraph, descending to the word tier for sentences that exceed
the limit on their own. -/
def sentenceLoop : List String → List String → String → List String × String
  | [], chunks, currentChunk => (chunks, currentChunk)
  | sentence :: rest, chunks, currentChunk =>
    if MAX_POST_LENGTH <
        getGraphemeLength (currentChunk ++ (if currentChunk = "" then "" else " ") ++ sentence) then
      if MAX_POST_LENGTH < getGraphemeLength sentence then
        let r := wordLoop (splitOnWhitespace sentence) chunks currentChunk ""
        let f := flushWordChunk r.1 r.2.1 r.2.2
        sentenceLoop rest f.1 f.2
      else
        sentenceLoop rest (if currentChunk = "" then chunks else chunks ++ [currentChunk])
          sentence
    else
      sentenceLoop rest chunks
        (currentChunk ++ (if currentChunk = "" then "" else " ") ++ sentence)

/-- The paragraph tier of `splitContentIntoChunks`: accumulates paragraphs
into the running chunk, descending to the sentence tier for paragraphs that
exceed the limit on their own. -/
def paragraphLoop : List String → List String → String → List String × String
  | [], chunks, currentChunk => (chunks, currentChunk)
  | p :: rest, chunks, currentChunk =>
    if MAX_POST_LENGTH < getGraphemeLength p then
      let r := sentenceLoop (splitOnSentenceBounds p) chunks currentChunk
      paragraphLoop rest r.1 r.2
    else if MAX_POST_LENGTH <
        getGraphemeLength (currentChunk ++ (if currentChunk = "" then "" else "\n\n") ++ p) then
      paragraphLoop rest (chunks ++ [currentChunk]) p
    else
      paragraphLoop rest chunks
        (currentChunk ++ (if currentChunk = "" then "" else "\n\n") ++ p)

/-- Main segmentation function `splitContentIntoChunks`: split content at paragraph,
sentence, or word boundaries, appending the final running chunk if it is
non-empty. -/
def splitContentIntoChunks (content : String) : List String :=
  let r := paragraphLoop (splitOnParagraphBreaks content) [] ""
  if r.2 = "" then r.1 else r.1 ++ [r.2]

/-- A stored draft (`DraftPost`): the raw content, the optional title, the
chunk sequence computed at creation time, and the two timestamps. -/
structure DraftPost where
  content : String
  title : Option String
  chunks : Option (List String)
  createdAt : String
  updatedAt : String
deriving DecidableEq, Repr

/-- The in-memory draft store (`drafts : Map<string, DraftPost>`), modelled as
an association list in insertion order, with unique keys. -/
abbrev DraftStore := List (String × DraftPost)

/-- Lookup in the draft map: the value stored under the key, if any. -/
def storeGet (store : DraftStore) (key : String) : Option DraftPost :=
  match store with
  | [] => none
  | (k, v) :: rest => if k = key then some v else storeGet rest key

/-- Insertion into the draft map: update the value in place when the key exists, otherwise append
the new entry (JS `Map` iteration keeps insertion order). -/
def storeSet (store : DraftStore) (key : String) (v : DraftPost) : DraftStore :=
  match store with
  | [] => [(key, v)]
  | (k, w) :: rest => if k = key then (key, v) :: rest else (k, w) :: storeSet rest key v

/-- Deletion from the draft map: remove the entry with the given key. -/
def storeDelete (store : DraftStore) (key : String) : DraftStore :=
  match store with
  | [] => []
  | (k, w) :: rest => if k = key then rest else (k, w) :: storeDelete rest key

/-- A `{uri, cid}` pair naming one remote post. -/
structure PostRef where
  uri : String
  cid : String
deriving DecidableEq, Repr

/-- The reply metadata of a reply post (`reply: {parent, root}`). -/
structure ReplyRef where
  parent : PostRef
  root : PostRef
deriving DecidableEq, Repr

/-- One `agent.post` call issued during a publish: the chunk text and the
reply linkage (none for the top-level first post). -/
structure PostCall where
  text : String
  reply : Option ReplyRef
deriving DecidableEq, Repr

/-- Outcome of the publish loop: either every chunk was posted (with the list
of new post URIs in order), or the loop stopped at the first failed step with
the URIs posted so far and the error message. -/
inductive PublishResult where
  | success (postUris : List String)
  | failure (postUris : List String) (msg : String)
deriving DecidableEq, Repr

/-- JS string/undefined truthiness test for the `parentUri` / `rootUri` local
variables: `undefined` and the empty string are both falsy. -/
def optFalsy : Option String → Bool
  | none => true
  | some s => s == ""

/-- Environment model of the remote posting API: each `agent.post` call
consumes the next scripted response (a fresh post URI or an error message);
an exhausted script behaves as an unknown remote error. -/
def takeResp : List (Except String String) →
    Except String String × List (Except String String)
  | [] => (Except.error ("Unknown error"), [])
  | r :: rest => (r, rest)

/-- The publish loop of `handlePublishDraft`: walk the chunks in order, post
the first chunk top-level, then post each later chunk as a reply whose parent
is the previous post and whose root is the first post, resolving both CIDs
through `getCid` first.  Returns the trace of issued post calls and the
result.  All failures inside one step (CID resolution, the missing-root
check, the post call itself) stop the loop with a failure result, as in the
source's per-chunk `try`/`catch`. -/
def publishLoop (getCid : String → Except String String) :
    List String → List (Except String String) → Option String → Option String →
    List String → List PostCall → List PostCall × PublishResult
  | [], _, _, _, postUris, trace => (trace, PublishResult.success postUris)
  | chunk :: rest, responses, parentUri, rootUri, postUris, trace =>
    if optFalsy parentUri then
      -- first post in the thread (no reply linkage); its URI becomes the root
      match takeResp responses with
      | (Except.error msg, _) => (trace ++ [⟨chunk, none⟩], PublishResult.failure postUris msg)
      | (Except.ok uri, responses') =>
        publishLoop getCid rest responses' (some uri) (some uri)
          (postUris ++ [uri]) (trace ++ [⟨chunk, none⟩])
    else
      match getCid (parentUri.getD "") with
      | Except.error msg => (trace, PublishResult.failure postUris msg)
      | Except.ok parentCid =>
        if optFalsy rootUri then
          (trace, PublishResult.failure postUris ("Root post URI is missing for a thread reply"))
        else
          match getCid (rootUri.getD "") with
          | Except.error msg => (trace, PublishResult.failure postUris msg)
          | Except.ok rootCid =>
            match takeResp responses with
            | (Except.error msg, _) =>
              (trace ++ [⟨chunk, some ⟨⟨parentUri.getD "", parentCid⟩, ⟨rootUri.getD "", rootCid⟩⟩⟩],
               PublishResult.failure postUris msg)
            | (Except.ok uri, responses') =>
              publishLoop getCid rest responses' (some uri) rootUri (postUris ++ [uri])
                (trace ++ [⟨chunk, some ⟨⟨parentUri.getD "", parentCid⟩, ⟨rootUri.getD "", rootCid⟩⟩⟩])

/-- Result of one draft-tool handler call: the draft store afterwards, the
text block returned to the caller, and the trace of remote post calls issued. -/
structure HandlerOutcome where
  store : DraftStore
  text : String
  trace : List PostCall
deriving DecidableEq, Repr

/-- Publish handler `handlePublishDraft`: look the draft up, reject a missing draft or an
empty chunk sequence without side effects, otherwise run the publish loop;
delete the draft only when every chunk was posted, and on a partial failure
report the failing post number out of the total and how many posts were
already published, leaving the store untouched. -/
def handlePublishDraft (getCid : String → Except String String)
    (responses : List (Except String String)) (store : DraftStore)
    (draftId : String) : HandlerOutcome :=
  match storeGet store draftId with
  | none => ⟨store, "Draft with ID " ++ draftId ++ " not found.", []⟩
  | some draft =>
    match draft.chunks with
    | none => ⟨store, "Draft has no content to publish.", []⟩
    | some cs =>
      if cs.length = 0 then ⟨store, "Draft has no content to publish.", []⟩
      else
        match publishLoop getCid cs responses none none [] [] with
        | (trace, PublishResult.failure postUris msg) =>
          ⟨store,
            "Error publishing post " ++ toString (postUris.length + 1) ++ "/" ++
              toString cs.length ++ ": " ++ msg ++ "\n\nAlready published " ++
              toString postUris.length ++ " posts.",
            trace⟩
        | (trace, PublishResult.success postUris) =>
          ⟨storeDelete store draftId,
            "Successfully published thread with " ++ toString postUris.length ++
              " posts.\nRoot post: " ++ postUris.headD ("undefined"),
            trace⟩

/-- Title defaulting (`draft.title || "Untitled"`): the empty string counts as absent. -/
def jsTitleOr : Option String → String
  | none => "Untitled"
  | some t => if t = "" then "Untitled" else t

/-- The per-chunk thread preview used by the create and get handlers. -/
def chunkPreview (cs : List String) : String :=
  String.intercalate ("\n\n---\n\n")
    (cs.enum.map fun ic =>
      "Post " ++ toString (ic.1 + 1) ++ "/" ++ toString cs.length ++ ": " ++
        toString ic.2.data.length ++ " chars\n" ++ ic.2)

/-- Get handler `handleGetDraft`: a not-found text for an absent identifier, otherwise
the formatted draft detail.  `fmtDate` stands for the host's
`toLocaleString` date rendering. -/
def handleGetDraft (fmtDate : String → String) (store : DraftStore)
    (draftId : String) : String :=
  match storeGet store draftId with
  | none => "Draft with ID " ++ draftId ++ " not found."
  | some draft =>
    "Draft ID: " ++ draftId ++ "\nTitle: " ++ jsTitleOr draft.title ++
      "\nCreated: " ++ fmtDate draft.createdAt ++
      "\nUpdated: " ++ fmtDate draft.updatedAt ++
      "\nPosts: " ++
      (match draft.chunks with | none => "undefined" | some cs => toString cs.length) ++
      "\n\nContent:\n\n" ++
      (match draft.chunks with | none => "undefined" | some cs => chunkPreview cs)

/-- Create handler `handleCreateDraft`, with the generated random identifier and the current
timestamp supplied as parameters: validate the content, segment it into
chunks, store the draft, and return the preview text. -/
def handleCreateDraft (store : DraftStore) (draftId : String) (now : String)
    (content : String) (title : Option String) : DraftStore × String :=
  if content = "" then (store, "Validation error: Draft content cannot be empty")
  else
    let chunks := splitContentIntoChunks content
    (storeSet store draftId ⟨content, title, some chunks, now, now⟩,
      "Draft created with ID: " ++ draftId ++ "\n\nPreview of thread (" ++
        toString chunks.length ++ " posts):\n\n" ++ chunkPreview chunks)

/-- The one-draft summary block built by the listing loop. -/
def summarizeDraft (fmtDate : String → String) (entry : String × DraftPost) : String :=
  "ID: " ++ entry.1 ++ "\nTitle: " ++ jsTitleOr entry.2.title ++
    "\nCreated: " ++ fmtDate entry.2.createdAt ++
    "\nPosts: " ++
    toString (match entry.2.chunks with | none => 0 | some cs => cs.length) ++
    "\nPreview: " ++
    (if 50 < entry.2.content.data.length
      then String.mk (entry.2.content.data.take 47) ++ "..."
      else entry.2.content) ++ "\n\n"

/-- List handler `handleListDrafts`: a no-drafts text for an empty store, otherwise the
first `limit` entries in insertion order with a shown-of-total header. -/
def handleListDrafts (fmtDate : String → String) (store : DraftStore)
    (limit : Nat) : String :=
  if store.length = 0 then
    "No drafts available. Create a draft first with bluesky_create_draft."
  else
    "Available drafts (" ++ toString (min store.length limit) ++ " of " ++
      toString store.length ++ "):\n\n" ++
      String.join ((store.take limit).map (summarizeDraft fmtDate))

/-- Delete handler `handleDeleteDraft`: a not-found text for an absent identifier, otherwise
remove the entry and confirm. -/
def handleDeleteDraft (store : DraftStore) (draftId : String) :
    DraftStore × String :=
  match storeGet store draftId with
  | none => (store, "Draft with ID " ++ draftId ++ " not found.")
  | some _ => (storeDelete store draftId, "Draft " ++ draftId ++ " deleted.")

/-- The reply-mode trace a fully successful publish loop issues: starting
from parent `p` with fixed root `r`, each chunk becomes a reply call whose
parent is the previous post and whose root is `r`, the next parent being the
next scripted URI. -/
def linkedTrace (cid : String → String) (r : String) :
    String → List String → List String → List PostCall
  | _, [], _ => []
  | _, _ :: _, [] => []
  | p, c :: cs, u :: us =>
    ⟨c, some ⟨⟨p, cid p⟩, ⟨r, cid r⟩⟩⟩ :: linkedTrace cid r u cs us

/-- Occurrence test used to state non-inclusion of a URI in a result text:
`startsWithSeq pat l` holds when `pat` is an initial segment of `l`. -/
def startsWithSeq : List Char → List Char → Bool
  | [], _ => true
  | _ :: _, [] => false
  | p :: ps, c :: cs => p == c && startsWithSeq ps cs

/-- Occurrence test: `occursSeq pat l` holds when `pat` occurs as a
contiguous subsequence of `l`. -/
def occursSeq (pat : List Char) : List Char → Bool
  | [] => startsWithSeq pat []
  | c :: rest => startsWithSeq pat (c :: rest) || occursSeq pat rest

/-! ### Helper lemmas -/

theorem getGraphemeLength_append (a b : String) :
    getGraphemeLength (a ++ b) = getGraphemeLength a + getGraphemeLength b := by
  cases a
  cases b
  simp [getGraphemeLength, String.append]

theorem storeGet_storeDelete_ne (store : DraftStore) (k draftId : String)
    (h : k ≠ draftId) :
    storeGet (storeDelete store draftId) k = storeGet store k := by
  induction store with
  | nil => rfl
  | cons e rest ih =>
    obtain ⟨k', v⟩ := e
    simp only [storeDelete, storeGet]
    by_cases hk : k' = draftId
    · subst hk
      have hki : ¬ k' = k := fun hh => h hh.symm
      simp [storeGet, hki]
    · simp only [if_neg hk, storeGet]
      by_cases hkk : k' = k
      · simp [hkk]
      · simp [hkk, ih]

theorem storeGet_eq_none_of_not_mem (store : DraftStore) (draftId : String)
    (h : draftId ∉ store.map Prod.fst) : storeGet store draftId = none := by
  induction store with
  | nil => rfl
  | cons e rest ih =>
    obtain ⟨k, v⟩ := e
    simp only [List.map_cons, List.mem_cons] at h
    push_neg at h
    simp [storeGet, Ne.symm h.1, ih h.2]

theorem storeGet_storeDelete_self (store : DraftStore) (draftId : String)
    (h : (store.map Prod.fst).Nodup) :
    storeGet (storeDelete store draftId) draftId = none := by
  induction store with
  | nil => rfl
  | cons e rest ih =>
    obtain ⟨k, v⟩ := e
    simp only [List.map_cons, List.nodup_cons] at h
    by_cases hk : k = draftId
    · subst hk
      simp only [storeDelete, if_pos rfl]
      exact storeGet_eq_none_of_not_mem rest k h.1
    · simp [storeDelete, storeGet, hk, ih h.2]

theorem handlePublishDraft_store_cases (getCid : String → Except String String)
    (responses : List (Except String String)) (store : DraftStore) (draftId : String) :
    (handlePublishDraft getCid responses store draftId).store = store ∨
    (handlePublishDraft getCid responses store draftId).store = storeDelete store draftId := by
  cases hg : storeGet store draftId with
  | none => left; simp [handlePublishDraft, hg]
  | some draft =>
    cases hc : draft.chunks with
    | none => left; simp [handlePublishDraft, hg, hc]
    | some cs =>
      cases cs with
      | nil => left; simp [handlePublishDraft, hg, hc]
      | cons c cs' =>
        rcases hp : publishLoop getCid (c :: cs') responses none none [] [] with ⟨trace, r⟩
        cases r with
        | success postUris => right; simp [handlePublishDraft, hg, hc, hp]
        | failure postUris msg => left; simp [handlePublishDraft, hg, hc, hp]

/-! ### Claims about the segmenter boundary behaviour (C1, C7) -/

/-- Claim C1 (refuted by the code, code bug): a single 301-grapheme word is
returned by `splitContentIntoChunks` as a chunk whose measured grapheme
length exceeds `MAX_POST_LENGTH`, violating the segmentation length
invariant the code's own comment promises. -/
theorem splitContent_oversized_chunk_exists :
    ∃ c ∈ splitContentIntoChunks (String.mk (List.replicate 301 'a')),
      MAX_POST_LENGTH < getGraphemeLength c := by decide

/-- Claim C7 (second half refuted by the code, code bug): content of exactly
300 graphemes yields exactly one chunk, but the 301-grapheme single-word
content also yields exactly one chunk instead of at least two. -/
theorem splitContent_boundary_evaluation :
    splitContentIntoChunks (String.mk (List.replicate 300 'a'))
        = [String.mk (List.replicate 300 'a')] ∧
      (splitContentIntoChunks (String.mk (List.replicate 301 'a'))).length = 1 ∧
      getGraphemeLength (String.mk (List.replicate 301 'a')) = 301 :=
  ⟨by decide, by decide, by decide⟩

/-! ### Publish preconditions (C6) -/

/-- Claim C6: publishing an absent draft returns the not-found text, and
publishing a draft whose chunk sequence is missing or empty returns the
no-content text; in both cases no remote post call is issued and the store
is unchanged. -/
theorem publish_absent_or_empty_no_side_effects
    (getCid : String → Except String String) (responses : List (Except String String))
    (store : DraftStore) (draftId : String) :
    (storeGet store draftId = none →
      handlePublishDraft getCid responses store draftId
        = ⟨store, "Draft with ID " ++ draftId ++ " not found.", []⟩) ∧
    (∀ draft, storeGet store draftId = some draft →
      (draft.chunks = none ∨ draft.chunks = some []) →
      handlePublishDraft getCid responses store draftId
        = ⟨store, "Draft has no content to publish.", []⟩) := by
  constructor
  · intro h
    simp [handlePublishDraft, h]
  · rintro draft h (hc | hc) <;> simp [handlePublishDraft, h, hc]

/-- Witness for C6 at a concrete empty store. -/
theorem publish_absent_or_empty_no_side_effects_witness :
    handlePublishDraft (fun _ => Except.error ("no remote")) [] [] "d1"
      = ⟨[], "Draft with ID d1 not found.", []⟩ :=
  (publish_absent_or_empty_no_side_effects (fun _ => Except.error ("no remote")) [] [] "d1").1 rfl

/-! ### Frame property of delete and publish (C10) -/

/-- Claim C10: deleting a draft and publishing a draft touch at most the
entry with the given identifier; the value stored under every other key is
unchanged, whatever the remote responses are. -/
theorem delete_and_publish_touch_only_target (store : DraftStore) (draftId k : String)
    (hk : k ≠ draftId) :
    storeGet (handleDeleteDraft store draftId).1 k = storeGet store k ∧
    ∀ (getCid : String → Except String String) (responses : List (Except String String)),
      storeGet (handlePublishDraft getCid responses store draftId).store k
        = storeGet store k := by
  constructor
  · unfold handleDeleteDraft
    cases hg : storeGet store draftId with
    | none => rfl
    | some d => simp [storeGet_storeDelete_ne store k draftId hk]
  · intro getCid responses
    rcases handlePublishDraft_store_cases getCid responses store draftId with h | h
    · rw [h]
    · rw [h, storeGet_storeDelete_ne store k draftId hk]

/-- Witness for C10 at a concrete two-draft store. -/
theorem delete_and_publish_touch_only_target_witness :
    storeGet (handleDeleteDraft
        [("d1", ⟨"A", none, some ["A"], "t1", "t1"⟩),
         ("d2", ⟨"B", none, some ["B"], "t2", "t2"⟩)] "d1").1 "d2"
      = storeGet
        [("d1", ⟨"A", none, some ["A"], "t1", "t1"⟩),
         ("d2", ⟨"B", none, some ["B"], "t2", "t2"⟩)] "d2" ∧
    storeGet (handlePublishDraft (fun u => Except.ok (u ++ "cid")) [Except.ok "u1"]
        [("d1", ⟨"A", none, some ["A"], "t1", "t1"⟩),
         ("d2", ⟨"B", none, some ["B"], "t2", "t2"⟩)] "d1").store "d2"
      = storeGet
        [("d1", ⟨"A", none, some ["A"], "t1", "t1"⟩),
         ("d2", ⟨"B", none, some ["B"], "t2", "t2"⟩)] "d2" :=
  ⟨(delete_and_publish_touch_only_target _ "d1" "d2" (by decide)).1,
   (delete_and_publish_touch_only_target _ "d1" "d2" (by decide)).2 _ _⟩

/-! ### Publish loop characterisation lemmas -/

theorem linkedTrace_length (cid : String → String) (r : String) :
    ∀ (cs us : List String) (p : String), us.length = cs.length →
      (linkedTrace cid r p cs us).length = cs.length := by
  intro cs
  induction cs with
  | nil => intro us p h; simp [linkedTrace]
  | cons c cs' ih =>
    intro us p h
    rcases us with _ | ⟨u, us'⟩
    · simp at h
    · simp [linkedTrace, ih us' u (by simpa using h)]

theorem linkedTrace_getElem? (cid : String → String) (r : String) :
    ∀ (cs us : List String) (p : String) (i : Nat), us.length = cs.length →
      (linkedTrace cid r p cs us)[i]?
        = (cs[i]?).map (fun c =>
            ⟨c, some ⟨⟨((p :: us)[i]?).getD (""), cid (((p :: us)[i]?).getD (""))⟩,
                      ⟨r, cid r⟩⟩⟩) := by
  intro cs
  induction cs with
  | nil => intro us p i h; simp [linkedTrace]
  | cons c cs' ih =>
    intro us p i h
    rcases us with _ | ⟨u, us'⟩
    · simp at h
    · cases i with
      | zero => simp [linkedTrace]
      | succ j => simp [linkedTrace, ih us' u j (by simpa using h)]

theorem publishLoop_reply_linked (cid : String → String) :
    ∀ (cs us : List String) (p r : String) (postUris : List String)
      (trace : List PostCall),
      us.length = cs.length → p ≠ "" → r ≠ "" → (∀ u ∈ us, u ≠ "") →
      publishLoop (fun u => Except.ok (cid u)) cs (us.map Except.ok)
          (some p) (some r) postUris trace
        = (trace ++ linkedTrace cid r p cs us,
           PublishResult.success (postUris ++ us)) := by
  intro cs
  induction cs with
  | nil =>
    intro us p r postUris trace hlen hp hr hus
    rcases us with _ | ⟨u, us'⟩
    · simp [publishLoop, linkedTrace]
    · simp at hlen
  | cons c cs' ih =>
    intro us p r postUris trace hlen hp hr hus
    rcases us with _ | ⟨u, us'⟩
    · simp at hlen
    · have hp' : (p == "") = false := beq_eq_false_iff_ne.mpr hp
      have hr' : (r == "") = false := beq_eq_false_iff_ne.mpr hr
      have hu : u ≠ "" := hus u (by simp)
      have hus' : ∀ x ∈ us', x ≠ "" := fun x hx => hus x (by simp [hx])
      have hlen' : us'.length = cs'.length := by simpa using hlen
      rw [List.map_cons, publishLoop]
      simp only [optFalsy, hp', hr', Bool.false_eq_true, if_false, Option.getD_some,
        takeResp]
      rw [ih us' u r (postUris ++ [u]) _ hlen' hu hr hus']
      simp [linkedTrace, List.append_assoc]

theorem publishLoop_all_ok (cid : String → String) :
    ∀ (cs us : List String) (parentUri rootUri : Option String)
      (postUris : List String) (trace : List PostCall),
      us.length = cs.length →
      (optFalsy parentUri = false → optFalsy rootUri = false) →
      ∃ tr, publishLoop (fun u => Except.ok (cid u)) cs (us.map Except.ok)
          parentUri rootUri postUris trace
        = (trace ++ tr, PublishResult.success (postUris ++ us)) ∧
        tr.length = cs.length := by
  intro cs
  induction cs with
  | nil =>
    intro us parentUri rootUri postUris trace hlen hinv
    rcases us with _ | ⟨u, us'⟩
    · exact ⟨[], by simp [publishLoop], rfl⟩
    · simp at hlen
  | cons c cs' ih =>
    intro us parentUri rootUri postUris trace hlen hinv
    rcases us with _ | ⟨u, us'⟩
    · simp at hlen
    · have hlen' : us'.length = cs'.length := by simpa using hlen
      cases hb : optFalsy parentUri with
      | true =>
        obtain ⟨tr, htr, hl⟩ := ih us' (some u) (some u) (postUris ++ [u])
          (trace ++ [⟨c, none⟩]) hlen' (fun h => h)
        refine ⟨⟨c, none⟩ :: tr, ?_, by simp [hl]⟩
        rw [List.map_cons, publishLoop]
        simp only [hb, if_true, takeResp]
        rw [htr]
        simp [List.append_assoc]
      | false =>
        have hroot : optFalsy rootUri = false := hinv hb
        obtain ⟨tr, htr, hl⟩ := ih us' (some u) rootUri (postUris ++ [u])
          (trace ++ [⟨c, some ⟨⟨parentUri.getD (""), cid (parentUri.getD (""))⟩,
                               ⟨rootUri.getD (""), cid (rootUri.getD (""))⟩⟩⟩])
          hlen' (fun _ => hroot)
        refine ⟨⟨c, some ⟨⟨parentUri.getD (""), cid (parentUri.getD (""))⟩,
                          ⟨rootUri.getD (""), cid (rootUri.getD (""))⟩⟩⟩ :: tr,
          ?_, by simp [hl]⟩
        rw [List.map_cons, publishLoop]
        simp only [hb, hroot, Bool.false_eq_true, if_false, takeResp]
        rw [htr]
        simp [List.append_assoc]

theorem publishLoop_first_error (cid : String → String) :
    ∀ (oks cs : List String) (e : String) (rest : List (Except String String))
      (parentUri rootUri : Option String) (postUris : List String)
      (trace : List PostCall),
      oks.length < cs.length →
      (optFalsy parentUri = false → optFalsy rootUri = false) →
      ∃ tr, publishLoop (fun u => Except.ok (cid u)) cs
          (oks.map Except.ok ++ Except.error e :: rest) parentUri rootUri postUris trace
        = (trace ++ tr, PublishResult.failure (postUris ++ oks) e) ∧
        tr.length = oks.length + 1 := by
  intro oks
  induction oks with
  | nil =>
    intro cs e rest parentUri rootUri postUris trace hlen hinv
    rcases cs with _ | ⟨c, cs'⟩
    · simp at hlen
    · cases hb : optFalsy parentUri with
      | true =>
        refine ⟨[⟨c, none⟩], ?_, rfl⟩
        rw [publishLoop]
        simp [hb, takeResp]
      | false =>
        have hroot : optFalsy rootUri = false := hinv hb
        refine ⟨[⟨c, some ⟨⟨parentUri.getD (""), cid (parentUri.getD (""))⟩,
                           ⟨rootUri.getD (""), cid (rootUri.getD (""))⟩⟩⟩], ?_, rfl⟩
        rw [publishLoop]
        simp [hb, hroot, takeResp]
  | cons u oks' ih =>
    intro cs e rest parentUri rootUri postUris trace hlen hinv
    rcases cs with _ | ⟨c, cs'⟩
    · simp at hlen
    · have hlen' : oks'.length < cs'.length := by simpa [Nat.succ_lt_succ_iff] using hlen
      cases hb : optFalsy parentUri with
      | true =>
        obtain ⟨tr, htr, hl⟩ := ih cs' e rest (some u) (some u) (postUris ++ [u])
          (trace ++ [⟨c, none⟩]) hlen' (fun h => h)
        refine ⟨⟨c, none⟩ :: tr, ?_, by simp [hl]⟩
        rw [List.map_cons, List.cons_append, publishLoop]
        simp only [hb, if_true, takeResp]
        rw [htr]
        simp [List.append_assoc]
      | false =>
        have hroot : optFalsy rootUri = false := hinv hb
        obtain ⟨tr, htr, hl⟩ := ih cs' e rest (some u) rootUri (postUris ++ [u])
          (trace ++ [⟨c, some ⟨⟨parentUri.getD (""), cid (parentUri.getD (""))⟩,
                               ⟨rootUri.getD (""), cid (rootUri.getD (""))⟩⟩⟩])
          hlen' (fun _ => hroot)
        refine ⟨⟨c, some ⟨⟨parentUri.getD (""), cid (parentUri.getD (""))⟩,
                          ⟨rootUri.getD (""), cid (rootUri.getD (""))⟩⟩⟩ :: tr,
          ?_, by simp [hl]⟩
        rw [List.map_cons, List.cons_append, publishLoop]
        simp only [hb, hroot, Bool.false_eq_true, if_false, takeResp]
        rw [htr]
        simp [List.append_assoc]

theorem except_script_cases {α β : Type} (rs : List (Except α β)) :
    (∃ us : List β, rs = us.map Except.ok) ∨
    ∃ (oks : List β) (e : α) (rest : List (Except α β)),
      rs = oks.map Except.ok ++ Except.error e :: rest ∧
      oks.length < rs.length := by
  induction rs with
  | nil => exact Or.inl ⟨[], rfl⟩
  | cons r rest ih =>
    cases r with
    | error e => exact Or.inr ⟨[], e, rest, rfl, by simp⟩
    | ok b =>
      rcases ih with ⟨us, h⟩ | ⟨oks, e, rest', h, hl⟩
      · exact Or.inl ⟨b :: us, by simp [h]⟩
      · refine Or.inr ⟨b :: oks, e, rest', by simp [h], ?_⟩
        simpa [Nat.succ_lt_succ_iff] using hl

theorem publishLoop_top_all_ok_linked (cid : String → String) (c : String)
    (cs' : List String) (u : String) (us : List String)
    (hlen : us.length = cs'.length) (hu : u ≠ "") (hus : ∀ x ∈ us, x ≠ "") :
    publishLoop (fun x => Except.ok (cid x)) (c :: cs') ((u :: us).map Except.ok)
        none none [] []
      = (⟨c, none⟩ :: linkedTrace cid u u cs' us,
         PublishResult.success (u :: us)) := by
  rw [List.map_cons, publishLoop]
  simp only [optFalsy, if_true, takeResp, List.nil_append]
  rw [publishLoop_reply_linked cid cs' us u u [u] [⟨c, none⟩] hlen hu hu hus]
  simp

/-! ### Thread linkage (C2) -/

/-- Claim C2: during a fully successful publish of a draft with at least two
chunks, the handler issues one post call per chunk; the first call carries no
reply linkage, and for every later call `i + 1` the reply metadata names the
previous post's URI (with its resolved CID) as parent and the first post's
URI as root — so the root reference never changes after the first post.  The
scripted URIs are assumed non-empty, as real AT-protocol URIs are. -/
theorem publish_thread_linkage (cid : String → String)
    (store : DraftStore) (draftId : String) (draft : DraftPost)
    (cs uris : List String)
    (hget : storeGet store draftId = some draft)
    (hchunks : draft.chunks = some cs)
    (hn : 2 ≤ cs.length)
    (hlen : uris.length = cs.length)
    (hne : ∀ u ∈ uris, u ≠ "") :
    (handlePublishDraft (fun u => Except.ok (cid u)) (uris.map Except.ok)
        store draftId).trace.length = cs.length ∧
    (handlePublishDraft (fun u => Except.ok (cid u)) (uris.map Except.ok)
        store draftId).trace[0]?
      = some ⟨(cs[0]?).getD (""), none⟩ ∧
    ∀ i, i + 2 ≤ cs.length →
      (handlePublishDraft (fun u => Except.ok (cid u)) (uris.map Except.ok)
          store draftId).trace[i + 1]?
        = some ⟨(cs[i + 1]?).getD (""),
            some ⟨⟨(uris[i]?).getD (""), cid ((uris[i]?).getD (""))⟩,
                  ⟨(uris[0]?).getD (""), cid ((uris[0]?).getD (""))⟩⟩⟩ := by
  rcases cs with _ | ⟨c, cs'⟩
  · simp at hn
  rcases uris with _ | ⟨u, us⟩
  · simp at hlen
  have hu : u ≠ "" := hne u (by simp)
  have hus : ∀ x ∈ us, x ≠ "" := fun x hx => hne x (by simp [hx])
  have hlen' : us.length = cs'.length := by simpa using hlen
  have hrun := publishLoop_top_all_ok_linked cid c cs' u us hlen' hu hus
  simp only [List.map_cons] at hrun
  refine ⟨?_, ?_, ?_⟩
  · simp [handlePublishDraft, hget, hchunks, hrun,
      linkedTrace_length cid u cs' us u hlen']
  · simp [handlePublishDraft, hget, hchunks, hrun]
  · intro i hi
    have hi' : i < cs'.length := by
      simp only [List.length_cons] at hi
      omega
    simp only [handlePublishDraft, hget, hchunks, hrun]
    rcases hx : cs'[i]? with _ | x
    · exact absurd (List.getElem?_eq_none_iff.mp hx) (by omega)
    · simp [hrun, linkedTrace_getElem? cid u cs' us u i hlen', hx]

/-- Witness for C2: a three-chunk draft published against three scripted URIs;
the third post's reply names the second URI as parent and the first as root. -/
theorem publish_thread_linkage_witness :
    (handlePublishDraft (fun u => Except.ok ("cid." ++ u))
        [Except.ok "u1", Except.ok "u2", Except.ok "u3"]
        [("d1", ⟨"x", none, some ["aa", "bb", "cc"], "t", "t"⟩)] "d1").trace[2]?
      = some ⟨"cc", some ⟨⟨"u2", "cid.u2"⟩, ⟨"u1", "cid.u1"⟩⟩⟩ := by
  have h := publish_thread_linkage (fun u => "cid." ++ u)
    [("d1", ⟨"x", none, some ["aa", "bb", "cc"], "t", "t"⟩)] "d1"
    ⟨"x", none, some ["aa", "bb", "cc"], "t", "t"⟩
    ["aa", "bb", "cc"] ["u1", "u2", "u3"]
    (by decide) rfl (by decide) (by decide) (by decide)
  exact h.2.2 1 (by decide)

/-! ### Partial failure behaviour (C3, C4) -/

/-- Claim C3: when the remote post call fails at some chunk, the publish
handler stops immediately (exactly one post call per chunk attempted, the
failing one included, and none after it), performs no rollback (the trace
holds only the issued post calls), leaves the store untouched, and a
subsequent get still returns the original draft. -/
theorem publish_partial_failure_preserves_draft (cid fmtDate : String → String)
    (store : DraftStore) (draftId : String) (draft : DraftPost)
    (cs : List String) (oks : List String) (e : String)
    (rest : List (Except String String))
    (hget : storeGet store draftId = some draft)
    (hchunks : draft.chunks = some cs)
    (hlt : oks.length < cs.length) :
    (handlePublishDraft (fun u => Except.ok (cid u))
        (oks.map Except.ok ++ Except.error e :: rest) store draftId).store = store ∧
    storeGet (handlePublishDraft (fun u => Except.ok (cid u))
        (oks.map Except.ok ++ Except.error e :: rest) store draftId).store draftId
      = some draft ∧
    (handlePublishDraft (fun u => Except.ok (cid u))
        (oks.map Except.ok ++ Except.error e :: rest) store draftId).trace.length
      = oks.length + 1 ∧
    handleGetDraft fmtDate (handlePublishDraft (fun u => Except.ok (cid u))
        (oks.map Except.ok ++ Except.error e :: rest) store draftId).store draftId
      = handleGetDraft fmtDate store draftId := by
  rcases cs with _ | ⟨c, cs'⟩
  · simp at hlt
  obtain ⟨tr, htr, hl⟩ := publishLoop_first_error cid oks (c :: cs') e rest
    none none [] [] hlt (fun h => h)
  simp only [List.nil_append] at htr
  have hstore : (handlePublishDraft (fun u => Except.ok (cid u))
      (oks.map Except.ok ++ Except.error e :: rest) store draftId).store = store := by
    simp [handlePublishDraft, hget, hchunks, htr]
  have htrace : (handlePublishDraft (fun u => Except.ok (cid u))
      (oks.map Except.ok ++ Except.error e :: rest) store draftId).trace = tr := by
    simp [handlePublishDraft, hget, hchunks, htr]
  refine ⟨hstore, ?_, ?_, ?_⟩
  · rw [hstore, hget]
  · rw [htrace, hl]
  · rw [hstore]

/-- Witness for C3: the second of three chunks fails; the two-draft store is
unchanged and the trace holds exactly two calls. -/
theorem publish_partial_failure_preserves_draft_witness :
    (handlePublishDraft (fun u => Except.ok ("cid." ++ u))
        [Except.ok "u1", Except.error "boom"]
        [("d1", ⟨"x", none, some ["aa", "bb", "cc"], "t", "t"⟩)] "d1").store
      = [("d1", ⟨"x", none, some ["aa", "bb", "cc"], "t", "t"⟩)] ∧
    (handlePublishDraft (fun u => Except.ok ("cid." ++ u))
        [Except.ok "u1", Except.error "boom"]
        [("d1", ⟨"x", none, some ["aa", "bb", "cc"], "t", "t"⟩)] "d1").trace.length
      = 2 := by
  have h := publish_partial_failure_preserves_draft (fun u => "cid." ++ u)
    (fun s => s) [("d1", ⟨"x", none, some ["aa", "bb", "cc"], "t", "t"⟩)] "d1"
    ⟨"x", none, some ["aa", "bb", "cc"], "t", "t"⟩ ["aa", "bb", "cc"]
    ["u1"] "boom" [] (by decide) rfl (by decide)
  exact ⟨h.1, h.2.2.1⟩

/-- Claim C4 as stated is false: the failure message reports only the count
of already-published posts and the failing index, not the URIs.  Concretely,
with chunk 2 of 3 failing after URI `u1` was published, the full result text
is the string below, and the character sequence of `u1` does not occur
anywhere in it. -/
theorem publish_failure_text_omits_uris :
    (handlePublishDraft (fun u => Except.ok ("cid." ++ u))
        [Except.ok "u1", Except.error "boom"]
        [("d1", ⟨"x", none, some ["aa", "bb", "cc"], "t", "t"⟩)] "d1").text
      = "Error publishing post 2/3: boom\n\nAlready published 1 posts." ∧
    occursSeq ("u1".data)
      ((handlePublishDraft (fun u => Except.ok ("cid." ++ u))
        [Except.ok "u1", Except.error "boom"]
        [("d1", ⟨"x", none, some ["aa", "bb", "cc"], "t", "t"⟩)] "d1").text.data)
      = false :=
  ⟨by decide, by decide⟩

/-- Claim C4 (amended): when the remote post call fails on chunk `k` with
`k - 1` posts already published, the result text reports the failing index
`k` out of the chunk total, the remote error message, and the count `k - 1`
of already-published posts — but not their URIs. -/
theorem publish_failure_reports_count_and_index (cid : String → String)
    (store : DraftStore) (draftId : String) (draft : DraftPost)
    (cs : List String) (oks : List String) (e : String)
    (rest : List (Except String String))
    (hget : storeGet store draftId = some draft)
    (hchunks : draft.chunks = some cs)
    (hlt : oks.length < cs.length) :
    (handlePublishDraft (fun u => Except.ok (cid u))
        (oks.map Except.ok ++ Except.error e :: rest) store draftId).text
      = "Error publishing post " ++ toString (oks.length + 1) ++ "/" ++
        toString cs.length ++ ": " ++ e ++ "\n\nAlready published " ++
        toString oks.length ++ " posts." := by
  rcases cs with _ | ⟨c, cs'⟩
  · simp at hlt
  obtain ⟨tr, htr, hl⟩ := publishLoop_first_error cid oks (c :: cs') e rest
    none none [] [] hlt (fun h => h)
  simp only [List.nil_append] at htr
  simp [handlePublishDraft, hget, hchunks, htr]

/-- Witness for the amended C4 at the concrete failing publish. -/
theorem publish_failure_reports_count_and_index_witness :
    (handlePublishDraft (fun u => Except.ok ("cid." ++ u))
        [Except.ok "u1", Except.error "boom"]
        [("d2", ⟨"x", none, some ["aa", "bb", "cc"], "t", "t"⟩)] "d2").text
      = "Error publishing post 2/3: boom\n\nAlready published 1 posts." := by
  have h := publish_failure_reports_count_and_index (fun u => "cid." ++ u)
    [("d2", ⟨"x", none, some ["aa", "bb", "cc"], "t", "t"⟩)] "d2"
    ⟨"x", none, some ["aa", "bb", "cc"], "t", "t"⟩ ["aa", "bb", "cc"]
    ["u1"] "boom" [] (by decide) rfl (by decide)
  exact h

/-! ### Success iff eviction (C5) -/

/-- Claim C5: for an existing draft with a non-empty chunk sequence, the
publish succeeds on every chunk exactly when the remote script answers every
post call with a URI; in that case, and only then, the draft is deleted from
the store (a lookup afterwards finds nothing), and the result text reports
the total post count together with the root (first) post's URI. -/
theorem publish_success_iff_draft_evicted (cid : String → String)
    (store : DraftStore) (draftId : String) (draft : DraftPost)
    (cs : List String) (responses : List (Except String String))
    (hget : storeGet store draftId = some draft)
    (hchunks : draft.chunks = some cs)
    (hcs : cs ≠ [])
    (hlen : responses.length = cs.length)
    (hnodup : (store.map Prod.fst).Nodup) :
    ((∃ uris : List String, responses = uris.map Except.ok) ↔
      storeGet (handlePublishDraft (fun u => Except.ok (cid u)) responses
          store draftId).store draftId = none) ∧
    (∀ uris : List String, responses = uris.map Except.ok →
      (handlePublishDraft (fun u => Except.ok (cid u)) responses
          store draftId).text
        = "Successfully published thread with " ++ toString cs.length ++
          " posts.\nRoot post: " ++ uris.headD ("undefined")) := by
  rcases cs with _ | ⟨c, cs'⟩
  · exact absurd rfl hcs
  have hsucc : ∀ uris : List String, responses = uris.map Except.ok →
      (handlePublishDraft (fun u => Except.ok (cid u)) responses
          store draftId).store = storeDelete store draftId ∧
      (handlePublishDraft (fun u => Except.ok (cid u)) responses
          store draftId).text
        = "Successfully published thread with " ++ toString (c :: cs').length ++
          " posts.\nRoot post: " ++ uris.headD ("undefined") := by
    intro uris hresp
    subst hresp
    have hlen2 : uris.length = (c :: cs').length := by simpa using hlen
    obtain ⟨tr, htr, _⟩ := publishLoop_all_ok cid (c :: cs') uris
      none none [] [] hlen2 (fun h => h)
    simp only [List.nil_append] at htr
    constructor
    · simp [handlePublishDraft, hget, hchunks, htr]
    · simp [handlePublishDraft, hget, hchunks, htr, hlen2]
  refine ⟨⟨?_, ?_⟩, fun uris hresp => (hsucc uris hresp).2⟩
  · rintro ⟨uris, hresp⟩
    rw [(hsucc uris hresp).1]
    exact storeGet_storeDelete_self store draftId hnodup
  · intro hnone
    rcases except_script_cases responses with h | ⟨oks, e, rrest, hresp, hlt0⟩
    · exact h
    · exfalso
      have hlt : oks.length < (c :: cs').length := by rw [← hlen]; exact hlt0
      subst hresp
      obtain ⟨tr, htr, _⟩ := publishLoop_first_error cid oks (c :: cs') e rrest
        none none [] [] hlt (fun h => h)
      simp only [List.nil_append] at htr
      have hstore : (handlePublishDraft (fun u => Except.ok (cid u))
          (oks.map Except.ok ++ Except.error e :: rrest) store draftId).store
          = store := by
        simp [handlePublishDraft, hget, hchunks, htr]
      rw [hstore, hget] at hnone
      simp at hnone

/-- Witness for C5: a two-chunk draft published successfully is evicted and
the result names the first URI as root. -/
theorem publish_success_iff_draft_evicted_witness :
    storeGet (handlePublishDraft (fun u => Except.ok ("cid." ++ u))
        [Except.ok "u1", Except.ok "u2"]
        [("d1", ⟨"x", none, some ["aa", "bb"], "t", "t"⟩)] "d1").store "d1" = none ∧
    (handlePublishDraft (fun u => Except.ok ("cid." ++ u))
        [Except.ok "u1", Except.ok "u2"]
        [("d1", ⟨"x", none, some ["aa", "bb"], "t", "t"⟩)] "d1").text
      = "Successfully published thread with 2 posts.\nRoot post: u1" := by
  have h := publish_success_iff_draft_evicted (fun u => "cid." ++ u)
    [("d1", ⟨"x", none, some ["aa", "bb"], "t", "t"⟩)] "d1"
    ⟨"x", none, some ["aa", "bb"], "t", "t"⟩ ["aa", "bb"]
    [Except.ok "u1", Except.ok "u2"] (by decide) rfl (by decide) (by decide)
    (by decide)
  exact ⟨h.1.mp ⟨["u1", "u2"], rfl⟩, h.2 ["u1", "u2"] rfl⟩

/-! ### Listing order, limit, and empty store (C8) -/

/-- Claim C8: after creating drafts A, B, C in that order, listing with limit
2 returns exactly the two earliest summaries in insertion order under a
header stating that 2 of 3 drafts are shown; listing an empty store returns
the no-drafts message, not an error.  The locale date rendering is
instantiated with the identity function. -/
theorem listDrafts_limit_and_order :
    handleListDrafts (fun s => s)
        (handleCreateDraft
          (handleCreateDraft
            (handleCreateDraft [] ("idA") ("tA") ("Alpha post") none).1
            ("idB") ("tB") ("Beta post") none).1
          ("idC") ("tC") ("Gamma post") none).1 2
      = "Available drafts (2 of 3):\n\n" ++
        "ID: idA\nTitle: Untitled\nCreated: tA\nPosts: 1\nPreview: Alpha post\n\n" ++
        "ID: idB\nTitle: Untitled\nCreated: tB\nPosts: 1\nPreview: Beta post\n\n" ∧
    handleListDrafts (fun s => s) [] 2
      = "No drafts available. Create a draft first with bluesky_create_draft." :=
  ⟨by decide, by decide⟩

/-! ### Non-emptiness of emitted chunks (C9) -/

theorem append_singleton_nonempty {chunks : List String} {cc : String}
    (h : ∀ c ∈ chunks, c ≠ "") (hcc : ¬ cc = "") :
    ∀ c ∈ chunks ++ [cc], c ≠ "" := by
  intro c hc
  rcases List.mem_append.mp hc with h' | h'
  · exact h c h'
  · rw [List.mem_singleton] at h'
    rw [h']
    exact hcc

theorem wordLoop_chunks_nonempty :
    ∀ (words chunks : List String) (cc wc : String),
      (∀ c ∈ chunks, c ≠ "") →
      ∀ c ∈ (wordLoop words chunks cc wc).1, c ≠ "" := by
  intro words
  induction words with
  | nil =>
    intro chunks cc wc h
    simpa [wordLoop] using h
  | cons w rest ih =>
    intro chunks cc wc h
    rw [wordLoop]
    split_ifs <;>
      first
        | exact ih _ _ _ h
        | exact ih _ _ _ (append_singleton_nonempty h (by assumption))

theorem flushWordChunk_chunks_nonempty (chunks : List String) (cc wc : String)
    (h : ∀ c ∈ chunks, c ≠ "") :
    ∀ c ∈ (flushWordChunk chunks cc wc).1, c ≠ "" := by
  unfold flushWordChunk
  split_ifs <;>
    first
      | exact h
      | exact append_singleton_nonempty h (by assumption)

theorem sentenceLoop_chunks_nonempty :
    ∀ (sentences chunks : List String) (cc : String),
      (∀ c ∈ chunks, c ≠ "") →
      ∀ c ∈ (sentenceLoop sentences chunks cc).1, c ≠ "" := by
  intro sentences
  induction sentences with
  | nil =>
    intro chunks cc h
    simpa [sentenceLoop] using h
  | cons s rest ih =>
    intro chunks cc h
    rw [sentenceLoop]
    split_ifs <;>
      first
        | exact ih _ _ (flushWordChunk_chunks_nonempty _ _ _
            (wordLoop_chunks_nonempty _ _ _ _ h))
        | exact ih _ _ (append_singleton_nonempty h (by assumption))
        | exact ih _ _ h

theorem getGraphemeLength_empty : getGraphemeLength "" = 0 := rfl

theorem paragraphLoop_chunks_nonempty :
    ∀ (ps chunks : List String) (cc : String),
      (∀ c ∈ chunks, c ≠ "") →
      ∀ c ∈ (paragraphLoop ps chunks cc).1, c ≠ "" := by
  intro ps
  induction ps with
  | nil =>
    intro chunks cc h
    simpa [paragraphLoop] using h
  | cons p rest ih =>
    intro chunks cc h
    rw [paragraphLoop]
    by_cases h1 : MAX_POST_LENGTH < getGraphemeLength p
    · rw [if_pos h1]
      exact ih _ _ (sentenceLoop_chunks_nonempty _ _ _ h)
    · rw [if_neg h1]
      by_cases h2 : MAX_POST_LENGTH <
          getGraphemeLength (cc ++ (if cc = "" then "" else "\n\n") ++ p)
      · rw [if_pos h2]
        have hcc : ¬ cc = "" := by
          intro hcc
          rw [hcc, if_pos rfl, getGraphemeLength_append, getGraphemeLength_append,
            getGraphemeLength_empty] at h2
          simp only [Nat.add_zero, Nat.zero_add] at h2
          exact h1 h2
        exact ih _ _ (append_singleton_nonempty h hcc)
      · rw [if_neg h2]
        exact ih _ _ h

/-- Claim C9: for every input string, every chunk emitted by the segmenter is
a non-empty string. -/
theorem splitContent_chunks_nonempty (content : String) :
    ∀ c ∈ splitContentIntoChunks content, c ≠ "" := by
  intro c hc
  have base := paragraphLoop_chunks_nonempty (splitOnParagraphBreaks content) [] ""
    (by simp)
  simp only [splitContentIntoChunks] at hc
  by_cases h2 : (paragraphLoop (splitOnParagraphBreaks content) [] "").2 = ""
  · rw [if_pos h2] at hc
    exact base c hc
  · rw [if_neg h2] at hc
    rcases List.mem_append.mp hc with h' | h'
    · exact base c h'
    · rw [List.mem_singleton] at h'
      subst h'
      exact h2

/-- Witness for C9 at a concrete input. -/
theorem splitContent_chunks_nonempty_witness :
    ("hello" ∈ splitContentIntoChunks ("hello")) ∧ ("hello" : String) ≠ "" :=
  ⟨by decide, splitContent_chunks_nonempty ("hello") "hello" (by decide)⟩
